import Mathlib

/-!
Verification of the intent-routing and filter-extraction logic of the
Personal_Assist repository (expense_server.py, orchestrator_server.py,
expense_tools.py, data_manager.py).

The Python code is shallowly embedded: strings are Lean `String`s, Python
`in` / `lower()` / `split()` / `replace()` / `strip()` are modelled on
`List Char`, calendar dates are a `Date` structure of numerals, fallible
collaborator calls are `Except String` values, and the ACP generator
agents are functions returning the list of yielded message texts together
with the exception (if any) escaping the generator.
-/

/- ### Python string primitives -/

/-- Lower-case an ASCII letter, as Python `str.lower` does on the ASCII
strings this code base manipulates. -/
def lowChar (c : Char) : Char :=
  if 65 ≤ c.toNat ∧ c.toNat ≤ 90 then Char.ofNat (c.toNat + 32) else c

/-- Python `s.lower()`. -/
def pyLower (s : String) : String := String.mk (s.data.map lowChar)

/-- The apostrophe character (kept out of string literals). -/
def apos : Char := Char.ofNat 39

/-- Does the second list start with the first one? -/
def headMatch : List Char → List Char → Bool
  | [], _ => true
  | _ :: _, [] => false
  | a :: as, b :: bs => a = b && headMatch as bs

/-- Does `n` occur as a contiguous sublist of the second argument? -/
def infChar (n : List Char) : List Char → Bool
  | [] => n.isEmpty
  | c :: t => headMatch n (c :: t) || infChar n t

/-- Python `needle in hay` on strings. -/
def pyIn (needle hay : String) : Bool := infChar needle.data hay.data

/-- Python `any(k in hay for k in needles)`. -/
def containsAny (hay : String) (needles : List String) : Bool :=
  needles.any (fun n => pyIn n hay)

/-- Python whitespace (the characters appearing in this code base's data). -/
def isWs (c : Char) : Bool := c = ' ' || c = '\t' || c = '\n' || c = '\r'

/-- Helper for Python `s.split()`: accumulates the current token (reversed). -/
def splitWsAux : List Char → List Char → List (List Char)
  | [], cur => if cur.isEmpty then [] else [cur.reverse]
  | c :: t, cur =>
    if isWs c then
      if cur.isEmpty then splitWsAux t [] else cur.reverse :: splitWsAux t []
    else splitWsAux t (c :: cur)

/-- Python `s.split()` (split on whitespace runs, dropping empty tokens). -/
def splitWs (l : List Char) : List (List Char) := splitWsAux l []

/-- Python `s.split()` at `String` level. -/
def pySplit (s : String) : List String := (splitWs s.data).map String.mk

/-- Python `sep.join(parts)` for a one-character separator list form. -/
def joinWithL (sep : List Char) : List (List Char) → List Char
  | [] => []
  | [x] => x
  | x :: y :: t => x ++ sep ++ joinWithL sep (y :: t)

/-- Python `sep.join(parts)`. -/
def joinWith (sep : String) (parts : List String) : String :=
  String.mk (joinWithL sep.data (parts.map String.data))

/-- Python `' '.join(s.split())` on char lists. -/
def collapseL (l : List Char) : List Char := joinWithL [' '] (splitWs l)

/-- Python `s.strip()`. -/
def pyStrip (s : String) : String :=
  String.mk (((s.data.dropWhile isWs).reverse.dropWhile isWs).reverse)

/-- Helper for Python `s.replace(pat, "")`: removes all non-overlapping
occurrences of `n`, scanning left to right (`n` nonempty in all uses).
The fuel argument keeps the recursion structural; it is always called
with fuel equal to the list length, which the recursion never exhausts. -/
def removeAllFuel (n : List Char) : Nat → List Char → List Char
  | 0, l => l
  | _ + 1, [] => []
  | fuel + 1, c :: t =>
    match n with
    | [] => c :: t
    | a :: as =>
      if headMatch (a :: as) (c :: t) then removeAllFuel n fuel (t.drop as.length)
      else c :: removeAllFuel n fuel t

/-- Removal of every occurrence of `n`, left to right. -/
def removeAll (n l : List Char) : List Char := removeAllFuel n l.length l

/-- Python `s.replace(pat, "")`. -/
def pyReplace (s pat : String) : String := String.mk (removeAll pat.data s.data)

/-- Python `str.title()` restricted to what the code prints: the first
letter of each word is upper-cased (ASCII). -/
def upChar (c : Char) : Char :=
  if 97 ≤ c.toNat ∧ c.toNat ≤ 122 then Char.ofNat (c.toNat - 32) else c

/-- Is the character an ASCII letter? -/
def isAsciiAlpha (c : Char) : Bool :=
  (65 ≤ c.toNat && c.toNat ≤ 90) || (97 ≤ c.toNat && c.toNat ≤ 122)

/-- Helper for Python `s.title()`: `prevAlpha` records whether the previous
character was a letter. -/
def titleAux : Bool → List Char → List Char
  | _, [] => []
  | prevAlpha, c :: t =>
    (if prevAlpha then c else upChar c) :: titleAux (isAsciiAlpha c) t

/-- Python `s.title()`. -/
def pyTitle (s : String) : String := String.mk (titleAux false s.data)

/- ### Calendar dates (Python datetime restricted to its date part) -/

/-- A calendar date.  Python `datetime` values compare by (year, month,
day, time); every datetime produced by the parsing code has time 00:00,
which is never later than the wall clock's time of day on the same date,
so date-level lexicographic comparison agrees with the source's
`parsed_date > today` comparisons. -/
structure Date where
  y : Nat
  m : Nat
  d : Nat
deriving DecidableEq, Repr

/-- Strict lexicographic order on dates. -/
def dateLtB (a b : Date) : Bool :=
  a.y < b.y || (a.y = b.y && (a.m < b.m || (a.m = b.m && a.d < b.d)))

/-- Gregorian leap year, as Python's `calendar`/`datetime` use. -/
def isLeap (y : Nat) : Bool := (y % 4 = 0 && y % 100 ≠ 0) || y % 400 = 0

/-- Days in a month of the proleptic Gregorian calendar. -/
def daysInMonth (y m : Nat) : Nat :=
  if m = 2 then (if isLeap y then 29 else 28)
  else if m = 4 || m = 6 || m = 9 || m = 11 then 30
  else 31

/-- One day earlier, Python `today - timedelta(days=1)` on the date part. -/
def prevDay (x : Date) : Date :=
  if 2 ≤ x.d then ⟨x.y, x.m, x.d - 1⟩
  else if 2 ≤ x.m then ⟨x.y, x.m - 1, daysInMonth x.y (x.m - 1)⟩
  else ⟨x.y - 1, 12, 31⟩

/-- Python `today - timedelta(days=n)` on the date part. -/
def subDays : Nat → Date → Date
  | 0, x => x
  | n + 1, x => subDays n (prevDay x)

/-- Zero-padded 2-digit numeral. -/
def pad2 (n : Nat) : String := if n < 10 then "0" ++ toString n else toString n

/-- Zero-padded 4-digit numeral (enough for the years the code handles). -/
def pad4 (n : Nat) : String :=
  if n < 10 then "000" ++ toString n
  else if n < 100 then "00" ++ toString n
  else if n < 1000 then "0" ++ toString n
  else toString n

/-- Python `strftime("%Y-%m-%d")`. -/
def dateFmt (x : Date) : String := pad4 x.y ++ "-" ++ pad2 x.m ++ "-" ++ pad2 x.d

/- ### expense_server.py: keyword tables and category extraction -/

/-- expense_server.py line 131: keywords sending a query to the update
branch. -/
def updateKeywords : List String := ["update", "change", "fix"]

/-- The literal string `what's` (built without an apostrophe literal). -/
def whatsApos : String := "what" ++ String.mk [apos] ++ "s"

/-- expense_server.py line 189: keywords sending a query to the
listing/filtering branch. -/
def listKeywords : List String :=
  ["show", "list", "spent", "how much", whatsApos, "whats", "my", "filter"]

/-- expense_server.py lines 140-148 (and identically 266-274): the category
table used by the update and add branches, in source order. -/
def updateCategories : List (String × List String) :=
  [("transportation", ["transport", "cab", "taxi", "uber", "lyft", "ride",
      "auto", "rickshaw"]),
   ("food", ["food", "lunch", "dinner", "breakfast", "meal", "restaurant",
      "grocery", "snack", "cafe", "kfc"]),
   ("electronics", ["electronics", "gadget", "device", "computer", "phone",
      "laptop", "tv", "television"]),
   ("entertainment", ["entertainment", "movie", "game", "concert", "show",
      "theatre", "sports"]),
   ("utilities", ["utility", "electricity", "water", "internet",
      "phone bill", "gas", "broadband"]),
   ("healthcare", ["health", "medical", "doctor", "medicine", "pharmacy",
      "hospital", "clinic"]),
   ("shopping", ["shopping", "clothes", "clothing", "shoes", "accessories",
      "fashion"])]

/-- expense_server.py lines 266-274: the add-branch table is a verbatim
copy of the update-branch table. -/
def addCategories : List (String × List String) := updateCategories

/-- expense_server.py lines 191-199: the listing-branch category table
(same keys; transportation carries two extra misspelling keywords). -/
def listCategories : List (String × List String) :=
  [("transportation", ["transport", "tranport", "tranportation", "cab",
      "taxi", "uber", "lyft", "ride", "auto", "rickshaw"]),
   ("food", ["food", "lunch", "dinner", "breakfast", "meal", "restaurant",
      "grocery", "snack", "cafe", "kfc"]),
   ("electronics", ["electronics", "gadget", "device", "computer", "phone",
      "laptop", "tv", "television"]),
   ("entertainment", ["entertainment", "movie", "game", "concert", "show",
      "theatre", "sports"]),
   ("utilities", ["utility", "electricity", "water", "internet",
      "phone bill", "gas", "broadband"]),
   ("healthcare", ["health", "medical", "doctor", "medicine", "pharmacy",
      "hospital", "clinic"]),
   ("shopping", ["shopping", "clothes", "clothing", "shoes", "accessories",
      "fashion"])]

/-- The category names, in table order (identical for all three tables). -/
def categoryNames : List String := updateCategories.map Prod.fst

/-- The exact-name pass (`for cat in categories.keys(): if cat in query`):
first category whose name occurs in the query. -/
def findExactCategory (table : List (String × List String)) (q : String) :
    Option String :=
  (table.map Prod.fst).find? (fun c => pyIn c q)

/-- The synonym pass of the update and add branches
(`if any(keyword in query for keyword in keywords)`). -/
def findSynCategory (table : List (String × List String)) (q : String) :
    Option String :=
  (table.find? (fun p => p.snd.any (fun k => pyIn k q))).map Prod.fst

/-- The synonym pass of the listing branch (lines 213-225): per category,
an exact whole-word match over `query.split()` is tried before substring
containment; either match selects the category. -/
def findSynCategoryList (table : List (String × List String)) (q : String) :
    Option String :=
  (table.find? (fun p =>
    p.snd.any (fun k => (pySplit q).contains k) ||
      p.snd.any (fun k => pyIn k q))).map Prod.fst

/-- Category extraction of the update branch (lines 150-165). -/
def extractCategoryUpd (q : String) : Option String :=
  match findExactCategory updateCategories q with
  | some c => some c
  | none => findSynCategory updateCategories q

/-- Category extraction of the listing branch (lines 205-225). -/
def extractCategoryList (q : String) : Option String :=
  match findExactCategory listCategories q with
  | some c => some c
  | none => findSynCategoryList listCategories q

/-- Category extraction of the add branch (lines 277-292). -/
def extractCategoryAdd (q : String) : Option String :=
  match findExactCategory addCategories q with
  | some c => some c
  | none => findSynCategory addCategories q

/- ### expense_server.py: date extraction (lines 81-120) -/

/-- Is the character an ASCII digit? -/
def isDigitC (c : Char) : Bool := 48 ≤ c.toNat && c.toNat ≤ 57

/-- Is the character a regex word character (`\w`)? -/
def isWordC (c : Char) : Bool := c.isAlpha || isDigitC c || c = '_'

/-- Numeric value of a digit run. -/
def digitsToNat (l : List Char) : Nat :=
  l.foldl (fun a c => 10 * a + (c.toNat - 48)) 0

/-- Take at most `k` leading digits if there is at least one and the run
stops exactly there (mirrors greedy `\d{1,n}` followed by a non-digit
continuation check done by the caller). -/
def takeDigits (l : List Char) : List Char × List Char :=
  (l.takeWhile isDigitC, l.dropWhile isDigitC)

/-- Word-boundary check after a match: end of text or a non-word char. -/
def boundaryOk : List Char → Bool
  | [] => true
  | c :: _ => !isWordC c

/-- First element of the list on which the continuation succeeds (the
priority order of regex backtracking alternatives). -/
def firstSome {a b : Type} (f : a → Option b) : List a → Option b
  | [] => none
  | x :: xs =>
    match f x with
    | some y => some y
    | none => firstSome f xs

/-- Literal match at the head of the list, returning the rest (the text
was already lower-cased, so matching is exact). -/
def litHere (pat l : List Char) : Option (List Char) :=
  if headMatch pat l then some (l.drop pat.length) else none

/-- Regex `\s+`: at least one whitespace character, consumed greedily. -/
def wsPlus : List Char → Option (List Char)
  | [] => none
  | c :: t => if isWs c then some (t.dropWhile isWs) else none

/-- The month names of the date regex (expense_server.py line 103): long
form, 3-letter short form, month number, in regex alternation order. -/
def monthTable : List (String × String × Nat) :=
  [("january", "jan", 1), ("february", "feb", 2), ("march", "mar", 3),
   ("april", "apr", 4), ("may", "may", 5), ("june", "jun", 6),
   ("july", "jul", 7), ("august", "aug", 8), ("september", "sep", 9),
   ("october", "oct", 10), ("november", "nov", 11), ("december", "dec", 12)]

/-- Month-name matches at the head of the list in backtracking priority
order: the greedy long form first, then the short form (every long form
extends its short form, so at most one table entry can match here). -/
def monthCandidates (l : List Char) : List (Nat × List Char) :=
  match monthTable.find? (fun e => headMatch e.2.1.data l) with
  | none => []
  | some (long, short, m) =>
    (match litHere long.data l with
     | some r => [(m, r)]
     | none => []) ++
    (match litHere short.data l with
     | some r => [(m, r)]
     | none => [])

/-- The optional ordinal suffix `(?:st|nd|rd|th)?` in backtracking
priority order: consumed first, then skipped. -/
def ordSuffix (l : List Char) : List (List Char) :=
  (match litHere "st".data l with
   | some r => [r]
   | none => []) ++
  (match litHere "nd".data l with
   | some r => [r]
   | none => []) ++
  (match litHere "rd".data l with
   | some r => [r]
   | none => []) ++
  (match litHere "th".data l with
   | some r => [r]
   | none => []) ++ [l]

/-- The numeric alternation of the date regex (expense_server.py line
103) at the head of the list, trailing `\b` included: one or two digits,
a dash or slash, one or two digits, then optionally a dash or slash and a
2-to-4 digit year followed by `\b`.  When the year part matches but its
trailing boundary fails, the engine backtracks to the empty optional
group, and the boundary after the second number is the separator itself,
a non-word character — so the two-number match stands. -/
def numDateAt (l : List Char) : Option (Nat × Nat × Option Nat) :=
  let (d1, r1) := takeDigits l
  if d1.length = 0 || 3 ≤ d1.length then none
  else
    match r1 with
    | sep :: r2 =>
      if sep = '-' || sep = '/' then
        let (d2, r3) := takeDigits r2
        if d2.length = 0 || 3 ≤ d2.length then none
        else
          match r3 with
          | sep2 :: r4 =>
            if sep2 = '-' || sep2 = '/' then
              let (d3, r5) := takeDigits r4
              if (2 ≤ d3.length ∧ d3.length ≤ 4) ∧ boundaryOk r5 = true then
                some (digitsToNat d1, digitsToNat d2, some (digitsToNat d3))
              else some (digitsToNat d1, digitsToNat d2, none)
            else
              if boundaryOk r3 then some (digitsToNat d1, digitsToNat d2, none)
              else none
          | [] => some (digitsToNat d1, digitsToNat d2, none)
      else none
    | [] => none

/-- The day-first month-name alternation of the date regex at the head of
the list, trailing `\b` included: one or two digits, an optional ordinal
suffix, whitespace, an optional `of` with whitespace, then a month name.
Returns the explicit (month, day) pair — dateutil resolves these fields
unambiguously — and no year, as this alternation has no year group. -/
def dayMonthAt (l : List Char) : Option (Nat × Nat × Option Nat) :=
  let (d1, r1) := takeDigits l
  if d1.length = 0 || 3 ≤ d1.length then none
  else
    firstSome (fun r2 =>
      match wsPlus r2 with
      | none => none
      | some r3 =>
        let monthEnd := fun (r : List Char) =>
          firstSome (fun mc =>
            if boundaryOk mc.2 then some (mc.1, digitsToNat d1, none)
            else none) (monthCandidates r)
        let withOf :=
          match litHere "of".data r3 with
          | some r4 =>
            match wsPlus r4 with
            | some r5 => monthEnd r5
            | none => none
          | none => none
        match withOf with
        | some res => some res
        | none => monthEnd r3) (ordSuffix r1)

/-- The month-first month-name alternation of the date regex at the head
of the list, trailing `\b` included: a month name, whitespace, one or two
digits, an optional ordinal suffix, then optionally whitespace and a
2-to-4 digit year followed by `\b`; when the year part fails, the engine
backtracks to the empty optional group and the boundary after the day (or
suffix) is checked instead. -/
def monthDayAt (l : List Char) : Option (Nat × Nat × Option Nat) :=
  firstSome (fun mc =>
    match wsPlus mc.2 with
    | none => none
    | some r2 =>
      let (d1, r3) := takeDigits r2
      if d1.length = 0 || 3 ≤ d1.length then none
      else
        firstSome (fun r4 =>
          let withYear :=
            match wsPlus r4 with
            | some r5 =>
              let (d3, r6) := takeDigits r5
              if (2 ≤ d3.length ∧ d3.length ≤ 4) ∧ boundaryOk r6 = true then
                some (mc.1, digitsToNat d1, some (digitsToNat d3))
              else none
            | none => none
          match withYear with
          | some res => some res
          | none =>
            if boundaryOk r4 then some (mc.1, digitsToNat d1, none)
            else none) (ordSuffix r3)) (monthCandidates l)

/-- The three alternations of the line-103 date regex at one position, in
regex order: numeric, then day-first month name, then month-first month
name.  Month-name matches return the explicit (month, day) pair; numeric
matches return the two numbers in source order for dateutil to resolve. -/
def dateAltAt (l : List Char) : Option (Nat × Nat × Option Nat) :=
  match numDateAt l with
  | some res => some res
  | none =>
    match dayMonthAt l with
    | some res => some res
    | none => monthDayAt l

/-- Leftmost search of the date regex with its leading `\b` (the previous
character, when there is one, is not a word character; every alternation
starts with a word character). -/
def findNumDate : Option Char → List Char → Option (Nat × Nat × Option Nat)
  | _, [] => none
  | prev, c :: t =>
    let bOk := match prev with
      | none => true
      | some p => !isWordC p
    match (if bOk then dateAltAt (c :: t) else none) with
    | some res => some res
    | none => findNumDate (some c) t

/-- dateutil's two-digit-year convention (`parser._parser._ymd` century
logic): a two-digit year is placed in the century of `today`, then shifted
by 100 to land within 50 years of `today`. -/
def convertYear (today : Date) (v : Nat) : Nat :=
  if 100 ≤ v then v
  else
    let y0 := today.y / 100 * 100 + v
    if today.y + 50 ≤ y0 then y0 - 100
    else if y0 + 50 < today.y then y0 + 100
    else y0

/-- dateutil `parser.parse` on the matched pair of numbers: month-first
(the US default), swapping when the first number cannot be a month — for
month-name matches the first number is the explicit month, at most 12, so
it is never swapped; `none` models the exception the source catches
(lines 116-117), including a day out of range for the month.  A missing
year defaults to the current year, as dateutil uses `datetime.now()` for
unfilled fields. -/
def duParse (today : Date) (a b : Nat) (yr : Option Nat) : Option Date :=
  let year := match yr with
    | some v => convertYear today v
    | none => today.y
  if 1 ≤ a ∧ a ≤ 12 then
    if 1 ≤ b ∧ b ≤ daysInMonth year a then some ⟨year, a, b⟩ else none
  else if 1 ≤ b ∧ b ≤ 12 then
    if 1 ≤ a ∧ a ≤ daysInMonth year b then some ⟨year, b, a⟩ else none
  else none

/-- The regex-plus-dateutil stage of the date extractor (lines 103-106):
the parsed calendar date before the no-future clamp, `none` when the
pattern is absent or parsing fails (the caught exception of lines
116-117). -/
def parsedNumDate (today : Date) (text : String) : Option Date :=
  match findNumDate none (pyLower text).data with
  | none => none
  | some (a, b, yr) => duParse today a b yr

/-- expense_server.py lines 105-120 after a successful regex match: the
1900-year fixup (lines 108-109) and the no-future clamp (lines 110-115),
with today's date as the default.  `Date.replace(year=...)` raises for
Feb 29 in a non-leap target year; that exception is caught by the source
and falls through to the default, modelled by the `daysInMonth` guard. -/
def clampParsed (today : Date) (op : Option Date) : Date :=
  match op with
  | none => today
  | some p =>
    let p1 := if p.y = 1900 then (⟨today.y, p.m, p.d⟩ : Date) else p
    if dateLtB today p1 then
      if p1.d ≤ daysInMonth today.y p1.m then
        if dateLtB today ⟨today.y, p1.m, p1.d⟩ then today
        else ⟨today.y, p1.m, p1.d⟩
      else today
    else p1

/-- expense_server.py lines 81-120, `extract_date_from_text`: relative
phrases first, then the regex/dateutil path with the no-future clamp. -/
def extract_date_from_text (today : Date) (text : String) : Date :=
  let t := pyLower text
  if pyIn "yesterday" t then subDays 1 today
  else if pyIn "today" t then today
  else if pyIn "tomorrow" t then today
  else if pyIn "last week" t then subDays 7 today
  else if pyIn "next week" t then today
  else clampParsed today (parsedNumDate today text)

/- ### expense_server.py: amount and id extraction -/

/-- A single-apostrophe string (kept out of literals). -/
def aposStr : String := String.mk [apos]

/-- The group of the amount regex at the head of the list: one or more
digits, an optional dot, then any digits (greedy). -/
def digitsPart (l : List Char) : Option (List Char) :=
  let (d1, r1) := takeDigits l
  if d1.isEmpty then none
  else
    match r1 with
    | '.' :: r2 => some (d1 ++ '.' :: r2.takeWhile isDigitC)
    | _ => some d1

/-- The amount regex (expense_server.py line 249) at the head of the list:
an optional dollar sign then the numeric group; returns the whole match. -/
def amountAt (l : List Char) : Option (List Char) :=
  match l with
  | '$' :: rest =>
    match digitsPart rest with
    | some ds => some ('$' :: ds)
    | none => none
  | _ => digitsPart l

/-- Leftmost search of the amount regex; returns the whole match
(regex group 0, used by the `replace` call on line 258). -/
def findAmount : List Char → Option (List Char)
  | [] => none
  | c :: t =>
    match amountAt (c :: t) with
    | some tok => some tok
    | none => findAmount t

/-- Characters admitted by the expense-id pattern (hex letters, digits,
hyphens). -/
def isIdChar (c : Char) : Bool :=
  isDigitC c || (97 ≤ c.toNat && c.toNat ≤ 102) || c = '-'

/-- The expense-id pattern (expense_server.py line 134) at the head of the
list.  The query was already lower-cased, so only the `id` spelling of the
`id|ID` alternation can match. -/
def idTokenAt : List Char → Option (List Char)
  | 'i' :: 'd' :: ':' :: rest =>
    let r2 := rest.dropWhile isWs
    let tk := r2.takeWhile isIdChar
    if tk.isEmpty then none else some tk
  | _ => none

/-- Leftmost search of the expense-id pattern. -/
def findIdToken : List Char → Option (List Char)
  | [] => none
  | c :: t =>
    match idTokenAt (c :: t) with
    | some tk => some tk
    | none => findIdToken t

/- ### expense_server.py: the branch taken by expense_agent -/

/-- The four elif branches of expense_agent (lines 131, 189, 246, 316). -/
inductive ExpenseBranch
  | updateBranch
  | listBranch
  | addBranch
  | helpBranch
deriving DecidableEq, Repr

/-- Which branch of the elif chain handles a message (the agent lower-cases
the message first, line 126). -/
def expense_branch (content : String) : ExpenseBranch :=
  let q := pyLower content
  if containsAny q updateKeywords then .updateBranch
  else if containsAny q listKeywords then .listBranch
  else if pyIn "$" q || pyIn "add" q || pyIn "spent" q then .addBranch
  else .helpBranch

/- ### expense_server.py: the add branch (lines 246-313) -/

/-- Everything the add branch extracts from the query. -/
structure AddParse where
  amountTok : String
  amountVal : String
  textWithoutAmount : String
  date : Date
  category : String
  description : String
deriving DecidableEq, Repr

/-- Lines 249-299: find the amount token, strip it from the query
(`replace` removes every occurrence, then `strip`), extract the date and
the category from the remaining text, and collapse whitespace for the
description.  `amountVal` is regex group 1 (no dollar sign), the text
`float()` receives. -/
def addBranchParse (today : Date) (q : String) : Option AddParse :=
  match findAmount q.data with
  | none => none
  | some tok =>
    let g1 := match tok with
      | '$' :: r => r
      | r => r
    let twa := pyStrip (pyReplace q (String.mk tok))
    let date := extract_date_from_text today twa
    let cat := (extractCategoryAdd twa).getD "other"
    let desc := String.mk (collapseL twa.data)
    some { amountTok := String.mk tok, amountVal := String.mk g1,
           textWithoutAmount := twa, date := date, category := cat,
           description := desc }

/- ### expense_server.py: the update branch payload (lines 167-180) -/

/-- The string-valued expense fields an update dictionary can address in
this code base. -/
inductive ExpField
  | category
  | date
  | description
  | subcategory
  | currency
  | payMethod
deriving DecidableEq, Repr

/-- Lines 169-172: the updates dictionary sent for a category update; it
always also rewrites the date to today (the source comment says "Also fix
the date").  `json.dumps` followed by `json.loads` is the identity on this
string-to-string dictionary and is not modelled separately. -/
def updateBranchPayload (cat : String) (today : Date) :
    List (ExpField × String) :=
  [(ExpField.category, pyLower cat), (ExpField.date, dateFmt today)]

/-- The update branch up to the collaborator call: requires an update
keyword, an id token, and a recognized category. -/
def expenseUpdateParse (today : Date) (content : String) :
    Option (String × List (ExpField × String)) :=
  let q := pyLower content
  if containsAny q updateKeywords then
    match findIdToken q.data with
    | some eid =>
      match extractCategoryUpd q with
      | some cat => some (String.mk eid, updateBranchPayload cat today)
      | none => none
    | none => none
  else none

/- ### data_manager.py and expense_tools.py: the expense store -/

/-- One row of the expenses JSON file (data_manager.py lines 64-91,
expense_tools.py lines 59-69).  Amounts are modelled as rationals; none of
the verified claims depends on binary floating-point rounding. -/
structure Expense where
  expense_id : String
  amount : Rat
  currency : String
  category : String
  subcategory : String
  description : String
  date : String
  payMethod : String
  isRecurring : Bool
  tags : List String
  createdAt : String
deriving DecidableEq, Repr

/-- One key of a Python `dict.update` applied to an expense row. -/
def setField (e : Expense) : ExpField × String → Expense
  | (ExpField.category, v) => { e with category := v }
  | (ExpField.date, v) => { e with date := v }
  | (ExpField.description, v) => { e with description := v }
  | (ExpField.subcategory, v) => { e with subcategory := v }
  | (ExpField.currency, v) => { e with currency := v }
  | (ExpField.payMethod, v) => { e with payMethod := v }

/-- Python `expense.update(update_data)` for a string-valued dictionary. -/
def applyPayload (p : List (ExpField × String)) (e : Expense) : Expense :=
  p.foldl setField e

namespace DataManager

/-- Helper for `update_expense`: update the first row whose id matches,
returning `none` when no row matches. -/
def updateFirst (eid : String) (upd : Expense → Expense) :
    List Expense → Option (List Expense)
  | [] => none
  | e :: t =>
    if e.expense_id = eid then some (upd e :: t)
    else (updateFirst eid upd t).map (e :: ·)

/-- data_manager.py lines 193-202, `DataManager.update_expense`: scan the
rows, update the first match in place and rewrite the file (the returned
list), else return `False` without writing.  The applied dictionary is
abstracted as the row transformer `upd`. -/
def update_expense (eid : String) (upd : Expense → Expense)
    (store : List Expense) : Bool × List Expense :=
  match updateFirst eid upd store with
  | some st => (true, st)
  | none => (false, store)

/-- data_manager.py lines 204-214, `DataManager.delete_expense`: drop the
matching rows; rewrite the file only if the list got shorter. -/
def delete_expense (eid : String) (store : List Expense) :
    Bool × List Expense :=
  let st := store.filter (fun e => e.expense_id != eid)
  if st.length < store.length then (true, st) else (false, store)

end DataManager

/-- expense_tools.py line 57: parse the comma-separated tags argument. -/
def splitOnAux (sep : Char) : List Char → List Char → List (List Char)
  | [], cur => [cur.reverse]
  | c :: t, cur =>
    if c = sep then cur.reverse :: splitOnAux sep t []
    else splitOnAux sep t (c :: cur)

/-- expense_tools.py line 57: `[tag.strip() for tag in tags.split(",") if
tag.strip()]`. -/
def parseTags (tags : String) : List String :=
  ((splitOnAux ',' tags.data []).map (fun w => pyStrip (String.mk w))).filter
    (fun s => !(s = ""))

/-- expense_tools.py lines 51-69 together with data_manager.py lines
176-191: the stored row produced by the `add_expense` tool.  The generated
uuid and creation timestamp are parameters; Supabase and the JSON fallback
store the same prepared dictionary. -/
def addExpenseRecord (today : Date) (amount : Rat)
    (category description date payMethod subcategory tags : String)
    (eid created : String) : Expense :=
  { expense_id := eid
    amount := amount
    currency := "USD"
    category := pyLower category
    subcategory := subcategory
    description := description
    date := if date = "" then dateFmt today else date
    payMethod := pyLower payMethod
    isRecurring := false
    tags := parseTags tags
    createdAt := created }

/-- expense_tools.py lines 152-163 (the local-storage path of
`list_expenses`): sequential filters on date range, category and amount
window.  String comparison of ISO dates is Python string comparison.  The
subsequent sort and formatting (lines 187-203) only affect presentation,
not which rows are selected. -/
def list_expenses_filter (startDate endDate category : String)
    (minA maxA : Rat) (store : List Expense) : List Expense :=
  let e1 := if startDate ≠ "" then
    store.filter (fun e => decide (startDate ≤ e.date)) else store
  let e2 := if endDate ≠ "" then
    e1.filter (fun e => decide (e.date ≤ endDate)) else e1
  let e3 := if category ≠ "all" then
    e2.filter (fun e => e.category == pyLower category) else e2
  e3.filter (fun e => decide (minA ≤ e.amount) && decide (e.amount ≤ maxA))

/- ### expense_server.py: the expense_tracker agent (lines 122-352) -/

/-- The collaborator tool calls the agent makes; any of them may raise,
modelled by `Except.error` carrying `str(e)`. -/
structure Collabs where
  updateExpense : String → List (ExpField × String) → Except String String
  filterExpenses : String → Except String String
  listExpensesCat : String → Except String String
  listExpensesAll : Except String String
  addExpense : String → String → String → String → Except String String

/-- How the body of the inner `try` (lines 129-336) finishes: an explicit
`return`, a fall-through past the elif chain, or an uncaught exception. -/
inductive InnerOut
  | ret
  | fall
  | exc (e : String)
deriving DecidableEq, Repr

/-- expense_server.py line 185. -/
def noIdMessage : String :=
  "Please provide the expense ID to update (e.g., " ++ aposStr ++
    "update expense ID: xxx to transportation" ++ aposStr ++ ")"

/-- expense_server.py line 182. -/
def noCategoryMessage : String :=
  "Could not determine which category to update to. Please specify a category."

/-- expense_server.py line 251. -/
def noAmountMessage : String :=
  "Could not find an amount in your request. Please specify the amount (e.g., $50)."

/-- expense_server.py lines 317-334. -/
def helpMessage : String :=
  "💰 **Expense Tracker Help**\n\nPlease use one of these formats:\n" ++
  "1. Add expense: \n" ++
  "   - \"Add $50 for electronics\" (uses today" ++ aposStr ++ "s date)\n" ++
  "   - \"Spent $25 on food yesterday\"\n" ++
  "   - \"Add $100 for shopping on March 15th\"\n" ++
  "2. View expenses:\n" ++
  "   - \"Show my food expenses\"\n" ++
  "   - \"Filter transportation expenses\"\n" ++
  "   - \"List expenses in transportation category\"\n" ++
  "   - \"Show all expenses\" (no category filter)\n" ++
  "3. Update expense:\n" ++
  "   - \"Update expense ID: xxx to transportation\"\n" ++
  "   - \"Change expense ID: xxx to food\"\n" ++
  "4. Get summary: \"Show expense summary\"\n\n" ++
  "Available categories: electronics, food, transportation, entertainment, " ++
  "utilities, healthcare, shopping"

/-- The body of the inner `try` (lines 129-336) on the lower-cased query:
the messages it yields and how it finishes.  The add branch's failure
path (lines 311-313) yields its error message without returning, so it
falls through; a collaborator failure in the listing branch (lines 237,
240) is an uncaught exception at this level. -/
def innerTry (today : Date) (cl : Collabs) (q : String) :
    List String × InnerOut :=
  if containsAny q updateKeywords then
    match findIdToken q.data with
    | none => ([noIdMessage], .ret)
    | some eid =>
      match extractCategoryUpd q with
      | none => ([noCategoryMessage], .ret)
      | some cat =>
        match cl.updateExpense (String.mk eid) (updateBranchPayload cat today) with
        | .ok _ =>
          (["Updated expense " ++ String.mk eid ++ " to category: " ++ cat], .ret)
        | .error e => (["Error updating expense: " ++ e], .ret)
  else if containsAny q listKeywords then
    match extractCategoryList q with
    | some cat =>
      match cl.filterExpenses cat with
      | .ok r =>
        (["Filtering expenses for category: " ++ pyTitle cat ++ "\n\n" ++ r],
          .ret)
      | .error _ =>
        match cl.listExpensesCat (pyLower cat) with
        | .ok r => ([r], .ret)
        | .error e => ([], .exc e)
    | none =>
      match cl.listExpensesAll with
      | .ok r => ([r], .ret)
      | .error e => ([], .exc e)
  else if pyIn "$" q || pyIn "add" q || pyIn "spent" q then
    match addBranchParse today q with
    | none => ([noAmountMessage], .ret)
    | some p =>
      match cl.addExpense p.amountVal p.category p.description (dateFmt p.date) with
      | .ok r => ([r], .ret)
      | .error e => (["Error adding expense: " ++ e], .fall)
  else ([helpMessage], .ret)

/-- The `str(NameError)` raised at line 348, where `response` is never
bound on any reachable path. -/
def nameErrMsg : String :=
  "name " ++ aposStr ++ "response" ++ aposStr ++ " is not defined"

/-- expense_server.py lines 122-352, the whole generator: the inner
try/except (its dead duplicate `except` at 341 is unreachable), the
`yield response` at line 348 that raises `NameError` whenever it is
reached, and the outer except (lines 350-352).  Input is the list of
message texts; the result is the list of yielded texts and the exception
(if any) escaping the generator. -/
def expense_agent_run (today : Date) (cl : Collabs) (input : List String) :
    List String × Option String :=
  let body : List String × Option String :=
    match input with
    | [] => ([], some "list index out of range")
    | content :: _ =>
      let q := pyLower content
      match innerTry today cl q with
      | (ys, InnerOut.ret) => (ys, none)
      | (ys, InnerOut.fall) => (ys, some nameErrMsg)
      | (ys, InnerOut.exc e) => (ys ++ ["Error: " ++ e], some nameErrMsg)
  match body with
  | (ys, none) => (ys, none)
  | (ys, some e) => (ys ++ [" Error in Expense Tracker: " ++ e], none)

/- ### orchestrator_server.py: extract_user_id_from_query (lines 43-76) -/

/-- Characters of the user-id token class (alphanumerics, underscore,
hyphen). -/
def isTokChar (c : Char) : Bool :=
  c.isAlpha || isDigitC c || c = '_' || c = '-'

/-- Case-insensitive literal match (pattern given lower-cased), returning
the remaining characters. -/
def litCI : List Char → List Char → Option (List Char)
  | [], l => some l
  | _ :: _, [] => none
  | p :: ps, c :: cs => if lowChar c = p then litCI ps cs else none

/-- Regex `x?` for one character, in backtracking priority order
(consume first, then skip), case-insensitively. -/
def optCharCI (c : Char) (l : List Char) : List (List Char) :=
  match l with
  | d :: t => if lowChar d = c then [t, l] else [l]
  | [] => [l]

/-- Does one of the literal alternatives match here (priority order)? -/
def altLitCI (alts : List String) (l : List Char) : Bool :=
  alts.any (fun a => (litCI a.data l).isSome)

/-- First alternative that matches here, returning the rest. -/
def altFirst (alts : List String) (l : List Char) : Option (List Char) :=
  match alts with
  | [] => none
  | a :: t =>
    match litCI a.data l with
    | some r => some r
    | none => altFirst t l

/-- First option list entry on which the continuation succeeds. -/
def firstSomeTok (f : List Char → Option (List Char)) :
    List (List Char) → Option (List Char)
  | [] => none
  | x :: xs =>
    match f x with
    | some tk => some tk
    | none => firstSomeTok f xs

/-- Core of pattern 1 after the optional `for`: `user\s*:\s*` then the
captured token. -/
def p1core (l : List Char) : Option (List Char) :=
  match litCI "user".data l with
  | none => none
  | some r =>
    match r.dropWhile isWs with
    | ':' :: r3 =>
      let tk := (r3.dropWhile isWs).takeWhile isTokChar
      if tk.isEmpty then none else some tk
    | _ => none

/-- Pattern 1 at a position: `(?:for\s+)?user\s*:\s*(token)`, trying the
optional `for` prefix first as the regex engine does. -/
def p1At (l : List Char) : Option (List Char) :=
  let withFor :=
    match litCI "for".data l with
    | some r1 =>
      match wsPlus r1 with
      | some r2 => p1core r2
      | none => none
    | none => none
  match withFor with
  | some tk => some tk
  | none => p1core l

/-- The tail of patterns 2 and 4 after the captured token: an optional
apostrophe, an optional `s`, whitespace, then one of the alternatives. -/
def possTail (alts : List String) (l : List Char) : Bool :=
  (optCharCI apos l).any (fun l2 =>
    (optCharCI 's' l2).any (fun l3 =>
      match wsPlus l3 with
      | some r => altLitCI alts r
      | none => false))

/-- Greedy captured token followed by a Boolean tail: try the longest
token-character run first, backtracking to shorter prefixes. -/
def tryGroup (tail : List Char → Bool) (l : List Char) : Nat → Option (List Char)
  | 0 => none
  | k + 1 =>
    if tail (l.drop (k + 1)) then some (l.take (k + 1))
    else tryGroup tail l k

/-- Patterns 2 and 4 at a position: `(token)\'?s?\s+(alternatives)`. -/
def possAt (alts : List String) (l : List Char) : Option (List Char) :=
  tryGroup (possTail alts) l (l.takeWhile isTokChar).length

/-- The alternatives of pattern 2 (`expenses?|spending|costs?`) in regex
priority order. -/
def expAlts : List String := ["expenses", "expense", "spending", "costs", "cost"]

/-- The alternatives of pattern 4 (`meetings?|schedule|calendar`). -/
def meetAlts : List String := ["meetings", "meeting", "schedule", "calendar"]

/-- The tail of pattern 3 after `expenses?`: whitespace, `as` or `for`
with trailing whitespace, then the captured token. -/
def p3rest (l : List Char) : Option (List Char) :=
  match wsPlus l with
  | none => none
  | some r =>
    let viaAs :=
      match litCI "as".data r with
      | some r2 =>
        match wsPlus r2 with
        | some r3 =>
          let tk := r3.takeWhile isTokChar
          if tk.isEmpty then none else some tk
        | none => none
      | none => none
    match viaAs with
    | some tk => some tk
    | none =>
      match litCI "for".data r with
      | some r2 =>
        match wsPlus r2 with
        | some r3 =>
          let tk := r3.takeWhile isTokChar
          if tk.isEmpty then none else some tk
        | none => none
      | none => none

/-- Pattern 3 core: `expenses?` (greedy optional `s`) then its tail. -/
def p3core (l : List Char) : Option (List Char) :=
  match litCI "expense".data l with
  | none => none
  | some r => firstSomeTok p3rest (optCharCI 's' r)

/-- Pattern 3 at a position: `(?:my\s+)?expenses?\s+(?:as\s+|for\s+)(token)`. -/
def p3At (l : List Char) : Option (List Char) :=
  let withMy :=
    match litCI "my".data l with
    | some r1 =>
      match wsPlus r1 with
      | some r2 => p3core r2
      | none => none
    | none => none
  match withMy with
  | some tk => some tk
  | none => p3core l

/-- Pattern 5 at a position:
`(?:meetings?|schedule|calendar)\s+(?:for\s+)(token)`. -/
def p5At (l : List Char) : Option (List Char) :=
  match altFirst meetAlts l with
  | none => none
  | some r =>
    match wsPlus r with
    | none => none
    | some r2 =>
      match litCI "for".data r2 with
      | none => none
      | some r3 =>
        match wsPlus r3 with
        | none => none
        | some r4 =>
          let tk := r4.takeWhile isTokChar
          if tk.isEmpty then none else some tk

/-- `re.search`: leftmost position at which the pattern matches. -/
def searchUserPat (patAt : List Char → Option (List Char)) :
    List Char → Option (List Char)
  | [] => none
  | c :: t =>
    match patAt (c :: t) with
    | some tk => some tk
    | none => searchUserPat patAt t

/-- orchestrator_server.py lines 43-76, `extract_user_id_from_query`: the
five case-insensitive patterns tried in order, the first match winning;
`envUserId` models `os.getenv("USER_ID", "default_user")`. -/
def extract_user_id_from_query (envUserId : String) (query : String) : String :=
  let l := query.data
  match searchUserPat p1At l with
  | some tk => String.mk tk
  | none =>
    match searchUserPat (possAt expAlts) l with
    | some tk => String.mk tk
    | none =>
      match searchUserPat p3At l with
      | some tk => String.mk tk
      | none =>
        match searchUserPat (possAt meetAlts) l with
        | some tk => String.mk tk
        | none =>
          match searchUserPat p5At l with
          | some tk => String.mk tk
          | none => envUserId

/- ### orchestrator_server.py: the personal_assistant agent (lines 180-382) -/

/-- orchestrator_server.py lines 180-382, the orchestrator generator: it
extracts the user id, hands the raw query to the CrewAI/LLM pipeline
(`crew`, covering agent construction, task and `kickoff_async`), yields
`str(result)`, and converts any exception into the line-381 error text.
The LLM call is an opaque collaborator that either returns text or
raises. -/
def orchestrator_run (crew : String → String → Except String String)
    (envUserId : String) (input : List String) : List String × Option String :=
  let body : List String × Option String :=
    match input with
    | [] => ([], some "list index out of range")
    | content :: _ =>
      let uid := extract_user_id_from_query envUserId content
      match crew content uid with
      | .ok r => ([r], none)
      | .error e => ([], some e)
  match body with
  | (ys, none) => (ys, none)
  | (ys, some e) => (ys ++ ["Error in Personal Assistant: " ++ e], none)

/- ### Multi-domain composition (spec section 4.3) -/

/-- A routing domain of the spec: a label, trigger keywords, and the
collaborator bound to it. -/
structure Domain where
  name : String
  keywords : List String
  handler : String → String

/-- Modelled from the spec: the deterministic multi-domain dispatch and
composition of spec section 4.3 is missing from the source — the
orchestrator in src (orchestrator_server.py, `orchestrator_agent`)
delegates routing and response composition to an LLM prompt, so no
deterministic composition routine exists in the repository.  Domains whose
keyword set intersects the lower-cased utterance, in registry order. -/
def matchedDomains (reg : List Domain) (q : String) : List Domain :=
  reg.filter (fun d => d.keywords.any (fun k => pyIn k (pyLower q)))

/-- Modelled from the spec: one labelled result section per domain. -/
def domainSection (q : String) (d : Domain) : String :=
  d.name ++ ": " ++ d.handler q

/-- Modelled from the spec: the one-line note appended when results come
from several domains. -/
def multiNote : String := "Results gathered from multiple sources."

/-- Modelled from the spec (section 4.3, `route_and_execute`): zero
matched domains return the help catalog; one matched domain passes its
result through unmodified; two or more produce the labelled sections in
matched order followed by the multi-source note — a concatenation, with
no cross-domain deduplication. -/
def route_and_execute (reg : List Domain) (help : String) (q : String) :
    String :=
  match matchedDomains reg q with
  | [] => help
  | [d] => d.handler q
  | ds => joinWith "\n\n" (ds.map (domainSection q)) ++ "\n\n" ++ multiNote

/- ### Generic lemmas about the string model -/

theorem headMatch_mono : ∀ (n h r : List Char), headMatch n h = true →
    headMatch n (h ++ r) = true := by
  intro n
  induction n with
  | nil => intro h r _; rfl
  | cons a as ih =>
    intro h r hm
    cases h with
    | nil => simp [headMatch] at hm
    | cons b bs =>
      simp only [headMatch, Bool.and_eq_true, decide_eq_true_eq] at hm ⊢
      exact ⟨hm.1, ih bs r hm.2⟩

theorem headMatch_refl (n : List Char) : headMatch n n = true := by
  induction n with
  | nil => rfl
  | cons a as ih => simp [headMatch, ih]

theorem infChar_self_append (n r : List Char) : infChar n (n ++ r) = true := by
  cases n with
  | nil =>
    cases r with
    | nil => rfl
    | cons c t => simp [infChar, headMatch]
  | cons a as =>
    simp only [List.cons_append, infChar, Bool.or_eq_true]
    exact Or.inl (headMatch_mono (a :: as) (a :: as) r (headMatch_refl _))

theorem infChar_append_left : ∀ (h n r : List Char), infChar n h = true →
    infChar n (h ++ r) = true := by
  intro h
  induction h with
  | nil =>
    intro n r hi
    cases n with
    | nil =>
      cases r with
      | nil => rfl
      | cons c t => simp [infChar, headMatch]
    | cons a as => simp [infChar, List.isEmpty] at hi
  | cons c t ih =>
    intro n r hi
    simp only [infChar, Bool.or_eq_true] at hi
    simp only [List.cons_append, infChar, Bool.or_eq_true]
    rcases hi with hm | hrec
    · exact Or.inl (by simpa using headMatch_mono n (c :: t) r hm)
    · exact Or.inr (ih n r hrec)

theorem infChar_append_right : ∀ (h n r : List Char), infChar n r = true →
    infChar n (h ++ r) = true := by
  intro h
  induction h with
  | nil => intro n r hi; simpa using hi
  | cons c t ih =>
    intro n r hi
    simp only [List.cons_append, infChar, Bool.or_eq_true]
    exact Or.inr (ih n r hi)

/-- String append acts as list append on the character data. -/
theorem strData_append (a b : String) : (a ++ b).data = a.data ++ b.data := by
  cases a
  cases b
  rfl

/-- Member strings occur inside a joined string. -/
theorem mem_joinWith_infix : ∀ (parts : List String) (sep s : String),
    s ∈ parts → pyIn s (joinWith sep parts) = true := by
  intro parts
  induction parts with
  | nil => intro sep s hs; cases hs
  | cons x t ih =>
    intro sep s hs
    rcases List.mem_cons.mp hs with h | h
    · subst h
      cases t with
      | nil => simpa [pyIn, joinWith, joinWithL] using infChar_self_append s.data []
      | cons y t2 =>
        simp only [pyIn, joinWith, joinWithL, List.map_cons]
        have := infChar_self_append s.data
          (sep.data ++ joinWithL sep.data (y.data :: t2.map String.data))
        simpa [List.append_assoc] using this
    · cases t with
      | nil => cases h
      | cons y t2 =>
        have hrec := ih sep s h
        simp only [pyIn, joinWith, joinWithL, List.map_cons] at hrec ⊢
        have := infChar_append_right
          (x.data ++ sep.data) s.data
          (joinWithL sep.data (y.data :: t2.map String.data)) hrec
        simpa [List.append_assoc] using this

/- ### Whitespace-collapse lemmas -/

/-- No two adjacent whitespace characters, tracking whether the previous
character was whitespace. -/
def wsRunOk : Bool → List Char → Bool
  | _, [] => true
  | prevWs, c :: t => !(prevWs && isWs c) && wsRunOk (isWs c) t

/-- First and last characters are not whitespace. -/
def edgeOk (l : List Char) : Bool :=
  (match l with
   | [] => true
   | c :: _ => !isWs c) &&
  (match l.getLast? with
   | none => true
   | some c => !isWs c)

/-- Fully normalized text: no leading, trailing or doubled whitespace. -/
def collapsedB (l : List Char) : Bool := edgeOk l && wsRunOk false l

theorem splitWsAux_tokens : ∀ (l cur : List Char),
    (∀ c ∈ cur, isWs c = false) →
    ∀ tk ∈ splitWsAux l cur, tk ≠ [] ∧ ∀ c ∈ tk, isWs c = false := by
  intro l
  induction l with
  | nil =>
    intro cur hcur tk htk
    simp only [splitWsAux] at htk
    split at htk
    · cases htk
    · rename_i hne
      rcases List.mem_singleton.mp htk with h
      subst h
      refine ⟨by simpa [List.isEmpty_iff] using hne, ?_⟩
      intro c hc
      exact hcur c (List.mem_reverse.mp hc)
  | cons a t ih =>
    intro cur hcur tk htk
    simp only [splitWsAux] at htk
    by_cases ha : isWs a = true
    · simp only [ha, if_pos] at htk
      split at htk
      · exact ih [] (by simp) tk htk
      · rename_i hne
        rcases List.mem_cons.mp htk with h | h
        · subst h
          refine ⟨by simpa [List.isEmpty_iff] using hne, ?_⟩
          intro c hc
          exact hcur c (List.mem_reverse.mp hc)
        · exact ih [] (by simp) tk h
    · simp only [ha, if_neg, Bool.false_eq_true, not_false_iff] at htk
      refine ih (a :: cur) ?_ tk htk
      intro c hc
      rcases List.mem_cons.mp hc with h | h
      · subst h; simpa using ha
      · exact hcur c h

theorem wsRunOk_append_nonws : ∀ (x : List Char), x ≠ [] →
    (∀ c ∈ x, isWs c = false) → ∀ (b : Bool) (r : List Char),
    wsRunOk b (x ++ r) = wsRunOk false r := by
  intro x
  induction x with
  | nil => intro h; cases h rfl
  | cons c x2 ih =>
    intro _ hws b r
    have hc : isWs c = false := hws c (List.mem_cons_self c x2)
    cases x2 with
    | nil => simp [wsRunOk, hc]
    | cons d x3 =>
      have h2 := ih (by simp) (fun e he => hws e (List.mem_cons_of_mem c he))
        (isWs c) r
      have step : wsRunOk b ((c :: d :: x3) ++ r) =
          wsRunOk (isWs c) ((d :: x3) ++ r) := by
        show (!(b && isWs c) && wsRunOk (isWs c) ((d :: x3) ++ r)) = _
        rw [hc]
        simp
      exact step.trans h2

theorem wsRunOk_of_nonws : ∀ (l : List Char), (∀ c ∈ l, isWs c = false) →
    ∀ b : Bool, wsRunOk b l = true := by
  intro l
  induction l with
  | nil => intro _ b; rfl
  | cons c t ih =>
    intro h b
    have hc : isWs c = false := h c (List.mem_cons_self c t)
    simp only [wsRunOk, hc, Bool.and_false, Bool.not_false, Bool.true_and]
    exact ih (fun e he => h e (List.mem_cons_of_mem c he)) false

/-- A joined token list is nonempty when its first token is. -/
theorem joinWithL_ne_nil (sep : List Char) (y : List Char)
    (t : List (List Char)) (hy : y ≠ []) : joinWithL sep (y :: t) ≠ [] := by
  cases t with
  | nil => simpa [joinWithL] using hy
  | cons z t2 =>
    simp only [joinWithL]
    intro h
    exact hy (List.append_eq_nil.mp (List.append_eq_nil.mp h).1).1

/-- Heads of joined good tokens are not whitespace. -/
theorem joinWithL_head (toks : List (List Char))
    (hg : ∀ tk ∈ toks, tk ≠ [] ∧ ∀ c ∈ tk, isWs c = false) :
    ∀ c cs, joinWithL [' '] toks = c :: cs → isWs c = false := by
  cases toks with
  | nil => intro c cs h; cases h
  | cons x t =>
    intro c cs h
    obtain ⟨hx, hxc⟩ := hg x (List.mem_cons_self x t)
    cases t with
    | nil =>
      simp only [joinWithL] at h
      subst h
      exact hxc c (List.mem_cons_self c cs)
    | cons y t2 =>
      simp only [joinWithL] at h
      cases x with
      | nil => cases hx rfl
      | cons a x2 =>
        have : a = c := by
          simpa using congrArg (fun l => l.head?) h
        subst this
        exact hxc a (List.mem_cons_self a x2)

theorem mem_of_getLast?_some : ∀ (l : List Char) (c : Char),
    l.getLast? = some c → c ∈ l := by
  intro l
  induction l with
  | nil => intro c h; cases h
  | cons a t ih =>
    intro c h
    cases t with
    | nil =>
      simp only [List.getLast?_singleton, Option.some.injEq] at h
      simp [h]
    | cons b t2 =>
      rw [List.getLast?_cons_cons] at h
      exact List.mem_cons_of_mem a (ih c h)

/-- Last characters of joined good tokens are not whitespace. -/
theorem joinWithL_last : ∀ (toks : List (List Char)),
    (∀ tk ∈ toks, tk ≠ [] ∧ ∀ c ∈ tk, isWs c = false) →
    ∀ c, (joinWithL [' '] toks).getLast? = some c → isWs c = false := by
  intro toks
  induction toks with
  | nil => intro _ c h; cases h
  | cons x t ih =>
    intro hg c h
    obtain ⟨hx, hxc⟩ := hg x (List.mem_cons_self x t)
    cases t with
    | nil =>
      simp only [joinWithL] at h
      exact hxc c (mem_of_getLast?_some x c h)
    | cons y t2 =>
      simp only [joinWithL] at h
      have hyne : joinWithL [' '] (y :: t2) ≠ [] :=
        joinWithL_ne_nil [' '] y t2 (hg y (by simp)).1
      rw [List.getLast?_append_of_ne_nil _ hyne] at h
      exact ih (fun tk htk => hg tk (List.mem_cons_of_mem x htk)) c h

/-- Joined good tokens have no doubled whitespace. -/
theorem joinWithL_noDouble : ∀ (toks : List (List Char)),
    (∀ tk ∈ toks, tk ≠ [] ∧ ∀ c ∈ tk, isWs c = false) →
    wsRunOk false (joinWithL [' '] toks) = true := by
  intro toks
  induction toks with
  | nil => intro _; rfl
  | cons x t ih =>
    intro hg
    obtain ⟨hx, hxc⟩ := hg x (List.mem_cons_self x t)
    cases t with
    | nil => exact wsRunOk_of_nonws x hxc false
    | cons y t2 =>
      have hgt : ∀ tk ∈ y :: t2, tk ≠ [] ∧ ∀ c ∈ tk, isWs c = false :=
        fun tk htk => hg tk (List.mem_cons_of_mem x htk)
      have hJ := ih hgt
      have hyne : joinWithL [' '] (y :: t2) ≠ [] :=
        joinWithL_ne_nil [' '] y t2 (hgt y (by simp)).1
      simp only [joinWithL]
      rw [List.append_assoc,
        wsRunOk_append_nonws x hx hxc false ([' '] ++ joinWithL [' '] (y :: t2))]
      cases hJcase : joinWithL [' '] (y :: t2) with
      | nil => exact absurd hJcase hyne
      | cons c J2 =>
        have hc : isWs c = false := joinWithL_head (y :: t2) hgt c J2 hJcase
        rw [hJcase] at hJ
        show (!(false && isWs ' ') && wsRunOk (isWs ' ') (c :: J2)) = true
        have hsp : isWs ' ' = true := by decide
        rw [hsp]
        show (true && (!(true && isWs c) && wsRunOk (isWs c) J2)) = true
        rw [hc]
        have : wsRunOk false (c :: J2) = wsRunOk false J2 := by
          show (!(false && isWs c) && wsRunOk (isWs c) J2) = _
          rw [hc]
          simp
        rw [← this]
        simpa using hJ

/-- The result of collapsing whitespace is fully normalized. -/
theorem collapseL_collapsed (l : List Char) : collapsedB (collapseL l) = true := by
  have hg : ∀ tk ∈ splitWs l, tk ≠ [] ∧ ∀ c ∈ tk, isWs c = false :=
    fun tk htk => splitWsAux_tokens l [] (by simp) tk htk
  unfold collapseL collapsedB edgeOk
  refine (Bool.and_eq_true _ _).mpr ⟨(Bool.and_eq_true _ _).mpr ⟨?_, ?_⟩, ?_⟩
  · cases hcase : joinWithL [' '] (splitWs l) with
    | nil => rfl
    | cons c cs =>
      have := joinWithL_head (splitWs l) hg c cs hcase
      simp [this]
  · cases hcase : (joinWithL [' '] (splitWs l)).getLast? with
    | none => rfl
    | some c =>
      have := joinWithL_last (splitWs l) hg c hcase
      simp [this]
  · exact joinWithL_noDouble (splitWs l) hg

/- ### find? and updateFirst characterizations -/

theorem find_eq_of_unique (l : List String) (p : String → Bool) (c : String)
    (hc : c ∈ l) (hpc : p c = true)
    (huniq : ∀ x ∈ l, p x = true → x = c) : l.find? p = some c := by
  induction l with
  | nil => cases hc
  | cons a t ih =>
    by_cases hpa : p a = true
    · have ha : a = c := huniq a (List.mem_cons_self a t) hpa
      rw [List.find?_cons_of_pos _ hpa, ha]
    · rw [List.find?_cons_of_neg _ (by simpa using hpa)]
      have hct : c ∈ t := by
        rcases List.mem_cons.mp hc with h | h
        · exact absurd (h ▸ hpc) hpa
        · exact h
      exact ih hct (fun x hx hpx => huniq x (List.mem_cons_of_mem a hx) hpx)

theorem updateFirst_eq_none_iff (eid : String) (upd : Expense → Expense) :
    ∀ l : List Expense,
    DataManager.updateFirst eid upd l = none ↔ ∀ e ∈ l, e.expense_id ≠ eid := by
  intro l
  induction l with
  | nil => simp [DataManager.updateFirst]
  | cons e t ih =>
    by_cases he : e.expense_id = eid
    · simp [DataManager.updateFirst, he]
    · simp only [DataManager.updateFirst, he, if_neg, not_false_iff,
        Option.map_eq_none, List.mem_cons]
      constructor
      · intro hn x hx
        rcases hx with h | h
        · subst h; exact he
        · exact (ih.mp (by simpa using hn)) x h
      · intro hall
        have := ih.mpr (fun x hx => hall x (Or.inr hx))
        simp [this]

theorem filter_length_lt_iff (eid : String) : ∀ l : List Expense,
    (l.filter (fun e => e.expense_id != eid)).length < l.length ↔
      ∃ e ∈ l, e.expense_id = eid := by
  intro l
  induction l with
  | nil => simp
  | cons a t ih =>
    by_cases ha : a.expense_id = eid
    · have hb : (a.expense_id != eid) = false := by simp [ha]
      have hle := List.length_filter_le (fun e => e.expense_id != eid) t
      simp only [List.filter_cons, hb, Bool.false_eq_true, if_false,
        List.length_cons]
      constructor
      · intro _
        exact ⟨a, List.mem_cons_self a t, ha⟩
      · intro _
        omega
    · have hb : (a.expense_id != eid) = true := by simp [ha]
      simp only [List.filter_cons, hb, if_true, List.length_cons]
      rw [Nat.succ_lt_succ_iff, ih]
      constructor
      · rintro ⟨e, he, hee⟩
        exact ⟨e, List.mem_cons_of_mem a he, hee⟩
      · rintro ⟨e, he, hee⟩
        rcases List.mem_cons.mp he with h | h
        · subst h; exact absurd hee ha
        · exact ⟨e, h, hee⟩

/-- The sample expense row the data manager seeds the JSON store with
(data_manager.py lines 78-90). -/
def sampleExpense : Expense :=
  { expense_id := "e002"
    amount := 45
    currency := "USD"
    category := "transportation"
    subcategory := "gas"
    description := "Shell gas station"
    date := "2024-01-14"
    payMethod := "debit"
    isRecurring := false
    tags := ["car", "fuel"]
    createdAt := "2024-01-14T18:45:00Z" }

/- ### The claims -/

/-- C1 (amended): the first branch of the expense router's elif chain is
taken exactly when the utterance contains one of the update-intent
keywords `update`, `change`, `fix`; these outrank the list/view and
add keywords tested later in the chain.  Utterances containing only
`delete` or `remove` never reach that branch — the router has no
delete branch at all, so they fall through to the list, add or help
branches according to their other keywords. -/
theorem C1_update_branch_keywords : ∀ content : String,
    (expense_branch content = ExpenseBranch.updateBranch ↔
      containsAny (pyLower content) updateKeywords = true) ∧
    (containsAny (pyLower content) ["delete", "remove"] = true →
      containsAny (pyLower content) updateKeywords = false →
      expense_branch content ≠ ExpenseBranch.updateBranch) := by
  intro content
  have hmain : expense_branch content = ExpenseBranch.updateBranch ↔
      containsAny (pyLower content) updateKeywords = true := by
    simp only [expense_branch]
    split_ifs with h1 h2 h3 <;> simp [h1]
  refine ⟨hmain, fun _ hku hb => ?_⟩
  rw [hmain.mp hb] at hku
  cases hku

/-- C1 witness: a concrete delete-wording utterance that also contains the
list keyword `my` is not routed to the update branch. -/
theorem C1_witness :
    expense_branch "delete my expenses" ≠ ExpenseBranch.updateBranch :=
  (C1_update_branch_keywords "delete my expenses").2 (by decide) (by decide)

/-- C1 counterexample to the claim as stated: `delete my expenses`
contains the alleged update/delete-intent keyword `delete`, yet the router
takes the list/view branch, and `remove the coffee charge` ends in the
help branch; neither reaches the update branch. -/
theorem C1_counterexample :
    pyIn "delete" (pyLower "delete my expenses") = true ∧
    expense_branch "delete my expenses" = ExpenseBranch.listBranch ∧
    expense_branch "delete my expenses" ≠ ExpenseBranch.updateBranch ∧
    pyIn "remove" (pyLower "remove the coffee charge") = true ∧
    expense_branch "remove the coffee charge" = ExpenseBranch.helpBranch := by
  decide

/-- C2: when exactly one of the seven category names occurs as a substring
of the lower-cased utterance, all three category extractors (update,
listing and add branches) return that category, whatever synonym keywords
of other categories co-occur; and when no category name occurs at all,
the result is exactly the synonym pass of the respective table. -/
theorem C2_exact_name_beats_synonyms : ∀ q : String,
    (∀ c ∈ categoryNames, pyIn c q = true →
      (∀ x ∈ categoryNames, pyIn x q = true → x = c) →
      extractCategoryUpd q = some c ∧ extractCategoryList q = some c ∧
        extractCategoryAdd q = some c) ∧
    ((∀ x ∈ categoryNames, pyIn x q = false) →
      extractCategoryUpd q = findSynCategory updateCategories q ∧
        extractCategoryList q = findSynCategoryList listCategories q ∧
        extractCategoryAdd q = findSynCategory addCategories q) := by
  intro q
  constructor
  · intro c hc hpc huniq
    have hfind : categoryNames.find? (fun x => pyIn x q) = some c :=
      find_eq_of_unique _ _ c hc hpc huniq
    have h1 : findExactCategory updateCategories q = some c := hfind
    have h2 : findExactCategory listCategories q = some c := by
      unfold findExactCategory
      rw [show listCategories.map Prod.fst = categoryNames from rfl]
      exact hfind
    have h3 : findExactCategory addCategories q = some c := hfind
    refine ⟨?_, ?_, ?_⟩
    · unfold extractCategoryUpd
      rw [h1]
    · unfold extractCategoryList
      rw [h2]
    · unfold extractCategoryAdd
      rw [h3]
  · intro hnone
    have hfind : categoryNames.find? (fun x => pyIn x q) = none :=
      List.find?_eq_none.mpr (fun x hx => by simp [hnone x hx])
    have h1 : findExactCategory updateCategories q = none := hfind
    have h2 : findExactCategory listCategories q = none := by
      unfold findExactCategory
      rw [show listCategories.map Prod.fst = categoryNames from rfl]
      exact hfind
    have h3 : findExactCategory addCategories q = none := hfind
    refine ⟨?_, ?_, ?_⟩
    · unfold extractCategoryUpd
      rw [h1]
    · unfold extractCategoryList
      rw [h2]
    · unfold extractCategoryAdd
      rw [h3]

/-- C2 witness: `food and a movie` contains the category name `food` and
the entertainment synonym `movie`; all three extractors pick `food`. -/
theorem C2_witness :
    extractCategoryUpd "food and a movie" = some "food" ∧
    extractCategoryList "food and a movie" = some "food" ∧
    extractCategoryAdd "food and a movie" = some "food" :=
  (C2_exact_name_beats_synonyms "food and a movie").1 "food"
    (by decide) (by decide) (by decide)

/-- C4: the claim says the utterance `list my expenses` matches no user-id
pattern and resolves to the configured default user id.  In the code,
pattern 2 (`token, optional apostrophe-s, then expenses/spending/costs`)
matches the substring `my expenses` and captures `my`, so the function
returns `my` — never the configured default, whatever it is set to.  The
code contradicts the spec here, and `my` is plainly not a user id: the
author even wrote pattern 3 with an optional `my ` prefix to skip this
very word. -/
theorem C4_user_id_failing_input :
    extract_user_id_from_query "default_user" "list my expenses" = "my" ∧
    extract_user_id_from_query "some_configured_id" "list my expenses" = "my" ∧
    "my" ≠ "default_user" := by
  decide

/-- C8: whenever the update branch dispatches a category update, the
payload rewrites exactly the category and the date — the date is always
set to the formatted current day — and applying the payload to any stored
row leaves every other field unchanged. -/
theorem C8_category_update_payload (today : Date) (content eid : String)
    (p : List (ExpField × String)) (e : Expense)
    (hp : expenseUpdateParse today content = some (eid, p)) :
    (applyPayload p e).date = dateFmt today ∧
    (∃ c, extractCategoryUpd (pyLower content) = some c ∧
      (applyPayload p e).category = pyLower c) ∧
    (applyPayload p e).amount = e.amount ∧
    (applyPayload p e).currency = e.currency ∧
    (applyPayload p e).subcategory = e.subcategory ∧
    (applyPayload p e).description = e.description ∧
    (applyPayload p e).payMethod = e.payMethod ∧
    (applyPayload p e).isRecurring = e.isRecurring ∧
    (applyPayload p e).tags = e.tags ∧
    (applyPayload p e).expense_id = e.expense_id ∧
    (applyPayload p e).createdAt = e.createdAt := by
  simp only [expenseUpdateParse] at hp
  split at hp
  · split at hp
    · split at hp
      · simp only [Option.some.injEq, Prod.mk.injEq] at hp
        obtain ⟨-, hpp⟩ := hp
        subst hpp
        rename_i cat hcat
        exact ⟨rfl, ⟨cat, hcat, rfl⟩, rfl, rfl, rfl, rfl, rfl, rfl, rfl, rfl, rfl⟩
      · cases hp
    · cases hp
  · cases hp

/-- C8 witness: the parse of a concrete category-change request produces
the two-field payload, and applying it to the seeded sample row changes
only category and date. -/
theorem C8_witness :
    (applyPayload [(ExpField.category, "food"), (ExpField.date, "2026-10-12")]
      sampleExpense).date = dateFmt ⟨2026, 10, 12⟩ :=
  (C8_category_update_payload ⟨2026, 10, 12⟩ "Change expense ID: ab12 to food"
    "ab12" [(ExpField.category, "food"), (ExpField.date, "2026-10-12")]
    sampleExpense (by decide)).1

/-- C9: `DataManager.update_expense` and `DataManager.delete_expense`
return `True` exactly when some stored row has the requested id, and when
they return `False` the stored list is left untouched (no rewrite of the
backing file). -/
theorem C9_missing_id_no_write (eid : String) (upd : Expense → Expense)
    (store : List Expense) :
    ((DataManager.update_expense eid upd store).1 = true ↔
      ∃ e ∈ store, e.expense_id = eid) ∧
    ((DataManager.update_expense eid upd store).1 = false →
      (DataManager.update_expense eid upd store).2 = store) ∧
    ((DataManager.delete_expense eid store).1 = true ↔
      ∃ e ∈ store, e.expense_id = eid) ∧
    ((DataManager.delete_expense eid store).1 = false →
      (DataManager.delete_expense eid store).2 = store) := by
  refine ⟨?_, ?_, ?_, ?_⟩
  · unfold DataManager.update_expense
    cases h : DataManager.updateFirst eid upd store with
    | none =>
      simp only []
      constructor
      · intro hcon; cases hcon
      · rintro ⟨e, he, heq⟩
        exact absurd heq ((updateFirst_eq_none_iff eid upd store).mp h e he)
    | some st =>
      simp only []
      constructor
      · intro _
        by_contra hne
        push_neg at hne
        have h0 : DataManager.updateFirst eid upd store = none :=
          (updateFirst_eq_none_iff eid upd store).mpr hne
        rw [h0] at h
        cases h
      · intro _; trivial
  · unfold DataManager.update_expense
    cases h : DataManager.updateFirst eid upd store with
    | none => intro _; rfl
    | some st => intro hcon; cases hcon
  · unfold DataManager.delete_expense
    by_cases hl : (store.filter (fun e => e.expense_id != eid)).length <
        store.length
    · simp only [if_pos hl]
      simpa using (filter_length_lt_iff eid store).mp hl
    · simp only [if_neg hl]
      constructor
      · intro hcon; cases hcon
      · intro hex
        exact absurd ((filter_length_lt_iff eid store).mpr hex) hl
  · unfold DataManager.delete_expense
    by_cases hl : (store.filter (fun e => e.expense_id != eid)).length <
        store.length
    · simp only [if_pos hl]
      intro hcon; cases hcon
    · simp only [if_neg hl]
      intro _; trivial

/-- C9 witness: an id matching no row leaves the concrete one-row store
unchanged. -/
theorem C9_witness :
    (DataManager.update_expense "no-such-id" (fun e => e) [sampleExpense]).2 =
      [sampleExpense] :=
  (C9_missing_id_no_write "no-such-id" (fun e => e) [sampleExpense]).2.1
    (by decide)

/-- C10: rows created by the add-expense tool store category and payment
method lower-cased; the listing filter compares the stored category with
the lower-cased query category; hence the stored row is independent of the
letter case of the category given at add time, and the selected rows are
independent of the letter case of the (non-sentinel) category given at
query time. -/
theorem C10_category_case_insensitive (today : Date) (amount : Rat)
    (cat cat2 desc date pm sub tags eid created : String)
    (q q2 startDate endDate : String) (minA maxA : Rat)
    (store : List Expense) :
    (addExpenseRecord today amount cat desc date pm sub tags eid
      created).category = pyLower cat ∧
    (addExpenseRecord today amount cat desc date pm sub tags eid
      created).payMethod = pyLower pm ∧
    (pyLower cat = pyLower cat2 →
      addExpenseRecord today amount cat desc date pm sub tags eid created =
        addExpenseRecord today amount cat2 desc date pm sub tags eid created) ∧
    (pyLower q = pyLower q2 → pyLower q ≠ "all" →
      list_expenses_filter startDate endDate q minA maxA store =
        list_expenses_filter startDate endDate q2 minA maxA store) := by
  refine ⟨rfl, rfl, ?_, ?_⟩
  · intro h
    simp [addExpenseRecord, h]
  · intro h12 hall
    have hq : q ≠ "all" := by
      intro h
      subst h
      exact hall (by decide)
    have hq2 : q2 ≠ "all" := by
      intro h
      rw [h] at h12
      exact hall (h12.trans (by decide))
    simp only [list_expenses_filter, if_pos hq, if_pos hq2, h12,
      if_neg (by simpa using hq), if_neg (by simpa using hq2)]

/-- C10 witness: the same one-row store filtered with `FOOD` and with
`Food` yields the same selection. -/
theorem C10_witness :
    list_expenses_filter "" "" "FOOD" 0 999999 [sampleExpense] =
      list_expenses_filter "" "" "Food" 0 999999 [sampleExpense] :=
  (C10_category_case_insensitive ⟨2026, 10, 12⟩ 45 "x" "x" "" "" "" "" "" ""
    "" "FOOD" "Food" "" "" 0 999999 [sampleExpense]).2.2.2 (by decide) (by decide)

/-- C5 (amended): in the add branch, the description handed to the add
operation is the utterance with every occurrence of the matched amount
token removed (Python `replace`), edges stripped and inner whitespace
collapsed to single spaces; a recognized date phrase is not removed, and
the result carries no leading, trailing or doubled whitespace. -/
theorem C5_description_residual (today : Date) (q : String) (p : AddParse)
    (hp : addBranchParse today q = some p) :
    p.description =
      String.mk (collapseL (pyStrip (pyReplace q p.amountTok)).data) ∧
    p.textWithoutAmount = pyStrip (pyReplace q p.amountTok) ∧
    collapsedB p.description.data = true := by
  simp only [addBranchParse] at hp
  split at hp
  · cases hp
  · simp only [Option.some.injEq] at hp
    subst hp
    exact ⟨rfl, rfl, collapseL_collapsed _⟩

/-- C5 witness: the concrete add request keeps `yesterday` in the
description while the amount token and surplus spaces are gone. -/
theorem C5_witness :
    collapsedB (String.mk "add for pizza yesterday".data).data = true :=
  (C5_description_residual ⟨2026, 10, 12⟩ "add 20 for pizza yesterday"
    { amountTok := "20", amountVal := "20",
      textWithoutAmount := "add  for pizza yesterday",
      date := ⟨2026, 10, 11⟩, category := "other",
      description := String.mk "add for pizza yesterday".data }
    (by decide)).2.2

/-- C5 counterexample to the claim as stated: the date phrase `yesterday`
is recognized by the date extractor on this very text, yet it remains in
the description; and removing every occurrence of the amount token can
reassemble the token, so the residual of `add a12b1122` still contains
the matched token `12`. -/
theorem C5_counterexample :
    expense_branch "add 20 for pizza yesterday" = ExpenseBranch.addBranch ∧
    (addBranchParse ⟨2026, 10, 12⟩ "add 20 for pizza yesterday").map
      AddParse.description = some "add for pizza yesterday" ∧
    pyIn "yesterday" "add for pizza yesterday" = true ∧
    extract_date_from_text ⟨2026, 10, 12⟩ "add  for pizza yesterday" =
      ⟨2026, 10, 11⟩ ∧
    expense_branch "add a12b1122" = ExpenseBranch.addBranch ∧
    (addBranchParse ⟨2026, 10, 12⟩ "add a12b1122").map AddParse.amountTok =
      some "12" ∧
    (addBranchParse ⟨2026, 10, 12⟩ "add a12b1122").map AddParse.description =
      some "add ab12" ∧
    pyIn "12" "add ab12" = true := by
  decide

/-- Inner-try runs that end in an explicit return yielded a message. -/
theorem innerTry_ret_nonempty (today : Date) (cl : Collabs) (q : String) :
    (innerTry today cl q).2 = InnerOut.ret → (innerTry today cl q).1 ≠ [] := by
  unfold innerTry
  repeat' split
  all_goals simp

/-- C7: both public agents always yield at least one message and never let
an exception escape the generator, for every input and every behavior of
the collaborator calls (tool errors, database errors, LLM errors, empty
input).  All failures surface as text inside the yielded messages. -/
theorem C7_router_total : ∀ (today : Date) (cl : Collabs)
    (input : List String) (crew : String → String → Except String String)
    (envUserId : String) (input2 : List String),
    (expense_agent_run today cl input).2 = none ∧
    (expense_agent_run today cl input).1 ≠ [] ∧
    (orchestrator_run crew envUserId input2).2 = none ∧
    (orchestrator_run crew envUserId input2).1 ≠ [] := by
  intro today cl input crew envUserId input2
  refine ⟨?_, ?_, ?_, ?_⟩
  · cases input with
    | nil => rfl
    | cons content rest =>
      unfold expense_agent_run
      rcases h : innerTry today cl (pyLower content) with ⟨ys, out⟩
      cases out <;> simp [h]
  · cases input with
    | nil => simp [expense_agent_run]
    | cons content rest =>
      unfold expense_agent_run
      rcases h : innerTry today cl (pyLower content) with ⟨ys, out⟩
      cases out with
      | ret =>
        have hne := innerTry_ret_nonempty today cl (pyLower content)
        rw [h] at hne
        simpa [h] using hne rfl
      | fall => simp [h]
      | exc e => simp [h]
  · cases input2 with
    | nil => rfl
    | cons content rest =>
      unfold orchestrator_run
      cases h : crew content
          (extract_user_id_from_query envUserId content) <;> simp [h]
  · cases input2 with
    | nil => simp [orchestrator_run]
    | cons content rest =>
      unfold orchestrator_run
      cases h : crew content
          (extract_user_id_from_query envUserId content) <;> simp [h]

/-- C6 (modelled from the spec, section 4.3): when two or more domains
match, the composed response is exactly the labelled per-domain sections
in matched order joined by blank lines, followed by the one-line
multi-source note; every matched domain's labelled section occurs in the
response, and so does the note. -/
theorem C6_multi_domain_sections (reg : List Domain) (help q : String)
    (h2 : 2 ≤ (matchedDomains reg q).length) :
    route_and_execute reg help q =
      joinWith "\n\n" ((matchedDomains reg q).map (domainSection q)) ++
        "\n\n" ++ multiNote ∧
    (∀ d ∈ matchedDomains reg q,
      pyIn (domainSection q d) (route_and_execute reg help q) = true) ∧
    pyIn multiNote (route_and_execute reg help q) = true := by
  rcases hm : matchedDomains reg q with _ | ⟨a, _ | ⟨b, t⟩⟩
  · rw [hm] at h2
    simp at h2
  · rw [hm] at h2
    simp at h2
  · have hroute : route_and_execute reg help q =
        joinWith "\n\n" ((a :: b :: t).map (domainSection q)) ++ "\n\n" ++
          multiNote := by
      unfold route_and_execute
      rw [hm]
    refine ⟨hroute, ?_, ?_⟩
    · intro d hd
      rw [hroute]
      have hmem : domainSection q d ∈ (a :: b :: t).map (domainSection q) :=
        List.mem_map_of_mem _ hd
      have hin := mem_joinWith_infix _ "\n\n" _ hmem
      unfold pyIn at hin ⊢
      rw [strData_append, strData_append]
      exact infChar_append_left _ _ _ (infChar_append_left _ _ _ hin)
    · rw [hroute]
      unfold pyIn
      rw [strData_append]
      refine infChar_append_right _ _ _ ?_
      have := infChar_self_append multiNote.data []
      simpa using this

/-- A two-domain registry used to witness the composition result. -/
def demoRegistry : List Domain :=
  [{ name := "Expenses", keywords := ["expense", "budget"],
     handler := fun _ => "expense result" },
   { name := "Notes", keywords := ["note"],
     handler := fun _ => "notes result" }]

/-- C6 witness: an utterance matching the expense and notes domains
produces a composed response containing the multi-source note. -/
theorem C6_witness :
    pyIn multiNote (route_and_execute demoRegistry "help text"
      "log an expense and a note") = true :=
  (C6_multi_domain_sections demoRegistry "help text"
    "log an expense and a note" (by decide)).2.2

/-- Concrete collaborators for the C7 witness: every tool call succeeds
with a fixed text. -/
def demoCollabs : Collabs :=
  { updateExpense := fun _ _ => Except.ok "updated"
    filterExpenses := fun _ => Except.ok "filtered"
    listExpensesCat := fun _ => Except.ok "listed"
    listExpensesAll := Except.ok "listed all"
    addExpense := fun _ _ _ _ => Except.ok "added" }

/-- C7 witness: a concrete run of both agents yields messages and lets no
exception escape. -/
theorem C7_witness :
    (expense_agent_run ⟨2026, 10, 12⟩ demoCollabs ["show my expenses"]).1 ≠ [] :=
  (C7_router_total ⟨2026, 10, 12⟩ demoCollabs ["show my expenses"]
    (fun _ _ => Except.ok "routed") "default_user" ["hello"]).2.1
